import Mathlib

/-!
Verification of the end-of-month price extraction core of the FinEval
repository (`src/fineval.py`, `src/imaneval.py`).

The pandas pipeline of `get_eomonth_price` is embedded shallowly:

* a dataframe of daily prices is a `List Row`, where a `Row` carries the
  timestamp components (`year`, `month`, `day`) of the index entry and the
  named numeric columns as an association list `fields`;
* the string columns `year_mo` (built as `str(index.year) + '-' +
  str(index.month).zfill(2)`) and the date index (built by `str()` of a
  `datetime.date`, thus `"YYYY-MM-DD"` with the year zero padded to 4) are
  built with `Nat.repr` and `zfill`;
* `df_price = df[[price_col, 'day', 'year_mo']]` is `dfPrice`, which fails
  with a KeyError-style value when a row lacks `price_col`;
* `df_price.groupby('year_mo')['day'].max()` is `eomTable` (group keys
  sorted ascending, one max day per key, reconstructed date string);
* `df_price.merge(df_id_eom, on='date')` is `mergeEom`: an inner join on
  the date string which preserves the order of the left frame's rows, each
  left row paired with every matching right row;
* the final `[start_month, end_month]` filter compares the `year_mo`
  column lexicographically, after the `'prior'` sentinel is resolved from
  the wall clock (modelled by explicit `todayYear`/`todayMonth` inputs).
-/

/-- Executable lexicographic comparison of character lists by code point,
the order Python uses to compare strings. -/
def listLtB : List Char → List Char → Bool
  | [], [] => false
  | [], _ :: _ => true
  | _ :: _, [] => false
  | a :: as, b :: bs =>
    if a < b then true else if b < a then false else listLtB as bs

/-- Executable strict lexicographic comparison of strings. -/
def strLtB (a b : String) : Bool := listLtB a.data b.data

/-- Executable `<=` on strings, as total lexicographic order: `a <= b` iff
`b` is not strictly smaller. This is how the pandas filter
`(df['year_mo'] >= start_month) & (df['year_mo'] <= end_month)` compares
its string column. -/
def strLeB (a b : String) : Bool := !(strLtB b a)

/-- Python `str.zfill` restricted to the use sites in the source: pad the
string on the left with `'0'` up to width `w`. -/
def zfill (w : Nat) (s : String) : String :=
  ⟨List.replicate (w - s.data.length) '0' ++ s.data⟩

/-- The `year_mo` column value of a row with timestamp year `y` and month
`m`: `str(y) + '-' + str(m).zfill(2)` (fineval.py lines 184-187). -/
def yearMoYM (y m : Nat) : String :=
  Nat.repr y ++ "-" ++ zfill 2 (Nat.repr m)

/-- The string form of the date index entry `(y, m, d)`: Python
`str(datetime.date(y, m, d))` zero pads the year to 4 digits and month and
day to 2 digits (fineval.py lines 191-196). -/
def dateYMD (y m d : Nat) : String :=
  zfill 4 (Nat.repr y) ++ "-" ++ zfill 2 (Nat.repr m) ++ "-" ++ zfill 2 (Nat.repr d)

/-- One row of the input daily-price dataframe: the timestamp index entry
split into its calendar components, and the named numeric columns. -/
structure Row where
  year : Nat
  month : Nat
  day : Nat
  fields : List (String × Int)
deriving DecidableEq

/-- The `year_mo` month key of a row. -/
def Row.yearMo (r : Row) : String := yearMoYM r.year r.month

/-- The string date index value of a row. -/
def Row.dateStr (r : Row) : String := dateYMD r.year r.month r.day

/-- A `pandas.Timestamp` has year between 1677 and 2262, month 1-12 and
day 1-31; the bounds actually used by the proofs are the weaker
4-digit-year ones. -/
def ValidRow (r : Row) : Prop :=
  1000 ≤ r.year ∧ r.year ≤ 9999 ∧ 1 ≤ r.month ∧ r.month ≤ 12 ∧
    1 ≤ r.day ∧ r.day ≤ 31

instance (r : Row) : Decidable (ValidRow r) := by
  unfold ValidRow; infer_instance

/-- Failures of the embedded pipeline. `keyNotFound` models the pandas
`KeyError` raised by `df[[price_col, 'day', 'year_mo']]` when the
requested price column is absent. -/
inductive PdError where
  | keyNotFound (col : String)
deriving DecidableEq

/-- One row of `df_price = df_return[[price_col, 'day', 'year_mo']]`,
indexed by the string date. -/
structure PRow where
  date : String
  price : Int
  day : Nat
  year_mo : String
deriving DecidableEq

/-- Column selection `df_return[[price_col, 'day', 'year_mo']]`
(fineval.py line 197): keeps the price column, the day of month and the
month key of every row, in input order; fails with a KeyError-style value
when a row lacks `price_col`. -/
def dfPrice (price_col : String) : List Row → Except PdError (List PRow)
  | [] => .ok []
  | r :: rs =>
    match r.fields.lookup price_col with
    | none => .error (.keyNotFound price_col)
    | some v =>
      match dfPrice price_col rs with
      | .error e => .error e
      | .ok ps => .ok (⟨r.dateStr, v, r.day, r.yearMo⟩ :: ps)

/-- One row of `df_id_eom` (fineval.py lines 200-202): a month key, the
maximum day of month observed for it, and the reconstructed date string
`year_mo + '-' + str(day).zfill(2)`. -/
structure EomKeyRow where
  year_mo : String
  day : Nat
  date : String
deriving DecidableEq

/-- The group keys of `df_price.groupby('year_mo')`: the distinct
`year_mo` values, sorted ascending (pandas groupby sorts group keys). -/
def sortedKeys (ps : List PRow) : List String :=
  List.insertionSort (fun a b => strLeB a b = true) ((ps.map PRow.year_mo).dedup)

/-- The grouped maximum `df_price.groupby('year_mo')['day'].max()` for one
key. -/
def maxDayIn (ps : List PRow) (k : String) : Nat :=
  ((ps.filter (fun p => p.year_mo == k)).map PRow.day).foldr max 0

/-- The dataframe `df_id_eom` (fineval.py lines 200-202): per month key
the maximum observed day, and the date string rebuilt from them. -/
def eomTable (ps : List PRow) : List EomKeyRow :=
  (sortedKeys ps).map (fun k =>
    { year_mo := k, day := maxDayIn ps k,
      date := k ++ "-" ++ zfill 2 (Nat.repr (maxDayIn ps k)) })

/-- One row of the merged frame `df_eom` after the column selection of
fineval.py line 206: the date, the price value, and the month key. -/
structure EomRow where
  date : String
  price : Int
  year_mo : String
deriving DecidableEq

/-- One row of imaneval's merged frame after the column selection of
imaneval.py line 51: only the date and the price value. -/
structure EomRow2 where
  date : String
  price : Int
deriving DecidableEq

/-- The inner merge `df_price.merge(df_id_eom, on='date')` (fineval.py
line 205): pandas preserves the order of the left frame's keys for an
inner join, pairing each left row with every right row carrying the same
date string; of the merged columns only `date`, the price and the left
frame's `year_mo` are ever used afterwards. -/
def mergeEom (ps : List PRow) (tbl : List EomKeyRow) : List EomRow :=
  ps.flatMap (fun p =>
    tbl.filterMap (fun e =>
      if p.date = e.date then some ⟨p.date, p.price, p.year_mo⟩ else none))

/-- The merged frame `df_eom` shared verbatim by the two copies of
`get_eomonth_price` (fineval.py lines 183-205 and imaneval.py lines
28-50 are identical): column selection, per-month maximum day, and the
date-string merge. -/
def eomFrame (price_col : String) (df : List Row) : Except PdError (List EomRow) :=
  match dfPrice price_col df with
  | .error e => .error e
  | .ok ps => .ok (mergeEom ps (eomTable ps))

namespace fineval

/-- Resolution of the `end_month` parameter (fineval.py lines 209-212):
the sentinel `'prior'` becomes `str(today.year) + '-' +
str(today.month - 1).zfill(2)`; the subtraction does not wrap at January.
The wall clock read `dt.today()` is modelled by the explicit
`todayYear`/`todayMonth` arguments. -/
def resolve_end_month (todayYear todayMonth : Nat) (end_month : String) : String :=
  if end_month = "prior" then
    Nat.repr todayYear ++ "-" ++ zfill 2 (Nat.repr (todayMonth - 1))
  else end_month

/-- The fineval.py copy of `get_eomonth_price` (lines 159-217): select the
price/day/month-key columns, find each month's maximum day, keep via the
date-string merge exactly the rows on those days, resolve `end_month`, and
filter to `start_month <= year_mo <= end_month` lexicographically. The
returned frame keeps the three columns `date`, `price_col`, `year_mo`. -/
def get_eomonth_price (df : List Row) (start_month end_month price_col : String)
    (todayYear todayMonth : Nat) : Except PdError (List EomRow) :=
  match eomFrame price_col df with
  | .error e => .error e
  | .ok df_eom =>
    let em := resolve_end_month todayYear todayMonth end_month
    .ok (df_eom.filter (fun r =>
      strLeB start_month r.year_mo && strLeB r.year_mo em))

/-- The column names of the frame returned by the fineval.py copy
(line 206: `df_eom = df_eom[['date', price_col, 'year_mo']]`). -/
def returned_columns (price_col : String) : List String :=
  ["date", price_col, "year_mo"]

end fineval

namespace imaneval

/-- The imaneval.py copy of `get_eomonth_price` (lines 5-55): identical
construction of the merged end-of-month frame, but the returned columns
are only `['date', price_col]` (line 51) and the range filter is absent
(line 53 is a TODO comment), so `start_month` and `end_month` are unused
and the wall clock is never read. -/
def get_eomonth_price (df : List Row) (start_month end_month price_col : String) :
    Except PdError (List EomRow2) :=
  match eomFrame price_col df with
  | .error e => .error e
  | .ok df_eom => .ok (df_eom.map (fun r => ⟨r.date, r.price⟩))

/-- The column names of the frame returned by the imaneval.py copy
(line 51: `df_eom = df_eom[['date', price_col]]`). -/
def returned_columns (price_col : String) : List String :=
  ["date", price_col]

end imaneval

/-- Scanner state of `get_vang_stock_table_segs` (fineval.py lines
102-116): positions of matched header lines, recorded last lines of
closed segments, and whether a segment is currently open. -/
structure SegState where
  stock_table_headers : List Nat
  stock_table_last_lines : List Nat
  found_table_header : Bool
deriving DecidableEq

/-- One iteration of the scanning loop of `get_vang_stock_table_segs`
(fineval.py lines 107-116). The regular expression search
`re.search(header_regex, line) is not None` is modelled by the predicate
`header_match`. -/
def segStep (header_match : String → Bool) (st : SegState) (position : Nat)
    (line : String) : SegState :=
  if header_match line then
    { st with stock_table_headers := st.stock_table_headers ++ [position],
              found_table_header := true }
  else if st.found_table_header && List.isPrefixOf "| ".data line.data then
    st
  else if st.found_table_header && (line.length == 0) then
    { st with stock_table_last_lines := st.stock_table_last_lines ++ [position - 1],
              found_table_header := false }
  else st

/-- The enumerate loop of `get_vang_stock_table_segs`, scanning the lines
from position `pos` starting in state `st`. -/
def segScanFrom (header_match : String → Bool) :
    SegState → Nat → List String → SegState
  | st, _, [] => st
  | st, pos, line :: rest =>
    segScanFrom header_match (segStep header_match st pos line) (pos + 1) rest

/-- The scanner state after the whole loop of `get_vang_stock_table_segs`. -/
def segScan (header_match : String → Bool) (report_lines : List String) : SegState :=
  segScanFrom header_match ⟨[], [], false⟩ 0 report_lines

/-- The fineval.py function `get_vang_stock_table_segs` (lines 86-123):
scan the report lines, then positionally zip the matched header positions
with the recorded segment last lines. -/
def get_vang_stock_table_segs (report_lines : List String)
    (header_match : String → Bool) : List (Nat × Nat) :=
  let st := segScan header_match report_lines
  List.zip st.stock_table_headers st.stock_table_last_lines

/-- The numeric value a row holds in the column `price_col` (defaulting
arbitrarily when the column is absent; `dfPrice` errors in that case
before this default could ever be observed). -/
def Row.priceVal (r : Row) (price_col : String) : Int :=
  (r.fields.lookup price_col).getD 0

/-- The `df_price` row produced from an input row when `price_col` is
present. -/
def toPRow (price_col : String) (r : Row) : PRow :=
  ⟨r.dateStr, r.priceVal price_col, r.day, r.yearMo⟩

/-- Projection of a fineval output row to its (date, price) payload, for
comparing the two copies of the extractor. -/
def EomRow.toPair (r : EomRow) : String × Int := (r.date, r.price)

/-- Projection of an imaneval output row to its (date, price) payload. -/
def EomRow2.toPair (r : EomRow2) : String × Int := (r.date, r.price)

deriving instance DecidableEq for Except

/-- A `df_price` row that arises from a valid input row: its string
columns are the formatted forms of in-range timestamp components. -/
def PValid (p : PRow) : Prop :=
  ∃ y m d : Nat, 1000 ≤ y ∧ y ≤ 9999 ∧ 1 ≤ m ∧ m ≤ 12 ∧ 1 ≤ d ∧ d ≤ 31 ∧
    p.year_mo = yearMoYM y m ∧ p.date = dateYMD y m d ∧ p.day = d

/-!
Helper lemmas about the embedded pipeline.
-/

theorem dfPrice_ok_of_forall (price_col : String) :
    ∀ {rows : List Row}, (∀ r ∈ rows, (r.fields.lookup price_col).isSome = true) →
      dfPrice price_col rows = .ok (rows.map (toPRow price_col))
  | [], _ => rfl
  | r :: rs, h => by
    have hr := h r (List.mem_cons_self r rs)
    obtain ⟨v, hv⟩ := Option.isSome_iff_exists.mp hr
    have ih := dfPrice_ok_of_forall price_col (fun x hx => h x (List.mem_cons_of_mem r hx))
    simp only [dfPrice, hv, ih, List.map_cons, toPRow, Row.priceVal, Option.getD_some]

theorem dfPrice_error_of_mem (price_col : String) :
    ∀ {rows : List Row} {r : Row}, r ∈ rows → r.fields.lookup price_col = none →
      dfPrice price_col rows = .error (.keyNotFound price_col)
  | r₀ :: rs, r, hr, hnone => by
    rcases List.mem_cons.mp hr with rfl | hr'
    · simp only [dfPrice, hnone]
    · cases hl : r₀.fields.lookup price_col with
      | none => simp only [dfPrice, hl]
      | some v =>
        have ih := dfPrice_error_of_mem price_col hr' hnone
        simp only [dfPrice, hl, ih]

theorem dfPrice_ok_inv (price_col : String) :
    ∀ {rows : List Row} {ps : List PRow}, dfPrice price_col rows = .ok ps →
      (∀ r ∈ rows, (r.fields.lookup price_col).isSome = true) ∧
        ps = rows.map (toPRow price_col)
  | [], ps, h => by
    refine ⟨by simp, ?_⟩
    simpa [dfPrice] using h.symm
  | r :: rs, ps, h => by
    cases hl : r.fields.lookup price_col with
    | none => rw [dfPrice, hl] at h; cases h
    | some v =>
      rw [dfPrice, hl] at h
      cases hrec : dfPrice price_col rs with
      | error e => rw [hrec] at h; cases h
      | ok qs =>
        rw [hrec] at h
        obtain ⟨hall, rfl⟩ := dfPrice_ok_inv price_col hrec
        cases h
        refine ⟨?_, ?_⟩
        · intro x hx
          rcases List.mem_cons.mp hx with rfl | hx'
          · simp [hl]
          · exact hall x hx'
        · simp [toPRow, Row.priceVal, hl]

theorem eomFrame_ok_inv (price_col : String) {df : List Row} {l : List EomRow}
    (h : eomFrame price_col df = .ok l) :
    (∀ r ∈ df, (r.fields.lookup price_col).isSome = true) ∧
      l = mergeEom (df.map (toPRow price_col)) (eomTable (df.map (toPRow price_col))) := by
  cases hd : dfPrice price_col df with
  | error e => rw [eomFrame, hd] at h; cases h
  | ok ps =>
    rw [eomFrame, hd] at h
    obtain ⟨hall, rfl⟩ := dfPrice_ok_inv price_col hd
    cases h
    exact ⟨hall, rfl⟩

/-- C3: every output row of `get_eomonth_price` has its zero-padded
month key between `start_month` and the resolved `end_month` inclusively,
under lexicographic string comparison; rows outside the range never
appear. -/
theorem C3_range_containment (df : List Row)
    (start_month end_month price_col : String) (todayYear todayMonth : Nat)
    (out : List EomRow)
    (hout : fineval.get_eomonth_price df start_month end_month price_col
      todayYear todayMonth = .ok out)
    (o : EomRow) (ho : o ∈ out) :
    strLeB start_month o.year_mo = true ∧
      strLeB o.year_mo (fineval.resolve_end_month todayYear todayMonth end_month) = true := by
  cases hframe : eomFrame price_col df with
  | error e => rw [fineval.get_eomonth_price, hframe] at hout; cases hout
  | ok l =>
    rw [fineval.get_eomonth_price, hframe] at hout
    cases hout
    have := (List.mem_filter.mp ho).2
    exact Bool.and_eq_true_iff.mp this

/-- Witness for C3 at a concrete input. -/
theorem C3_range_containment_witness :
    strLeB "2019-01" "2019-01" = true ∧
      strLeB "2019-01" (fineval.resolve_end_month 2025 6 "2019-12") = true :=
  C3_range_containment [⟨2019, 1, 3, [("Close", 10)]⟩] "2019-01" "2019-12" "Close"
    2025 6 [⟨"2019-01-03", 10, "2019-01"⟩] rfl ⟨"2019-01-03", 10, "2019-01"⟩
    (by decide)

/-- C4: the fineval.py resolution of the `'prior'` sentinel at a January
wall clock (here January 2025) produces the invalid month key `"2025-00"`
by naive month subtraction, not the `"2024-12"` the specification
requires; this is the year-rollover defect the spec flags. -/
theorem C4_prior_january_rollover :
    fineval.resolve_end_month 2025 1 "prior" = "2025-00" ∧
      fineval.resolve_end_month 2025 1 "prior" ≠ "2024-12" := by
  exact ⟨rfl, by decide⟩

/-- C6: when some input row lacks the requested `price_col` field, the
extractor fails with the KeyError-style value naming that column instead
of returning a result; the row is not skipped and no default is
substituted. -/
theorem C6_missing_price_col (df : List Row)
    (start_month end_month price_col : String) (todayYear todayMonth : Nat)
    (r : Row) (hr : r ∈ df) (hmiss : r.fields.lookup price_col = none) :
    fineval.get_eomonth_price df start_month end_month price_col todayYear todayMonth
      = .error (.keyNotFound price_col) := by
  have hd := dfPrice_error_of_mem price_col hr hmiss
  rw [fineval.get_eomonth_price, eomFrame, hd]

/-- Witness for C6 at a concrete input missing the `Close` column. -/
theorem C6_missing_price_col_witness :
    fineval.get_eomonth_price [⟨2019, 1, 3, [("Open", 10)]⟩] "2019-01" "2019-02"
      "Close" 2025 6 = .error (.keyNotFound "Close") :=
  C6_missing_price_col [⟨2019, 1, 3, [("Open", 10)]⟩] "2019-01" "2019-02" "Close"
    2025 6 ⟨2019, 1, 3, [("Open", 10)]⟩ (by decide) (by decide)

/-- C9 counterexample: a malformed `start_month` (here `"2019-1"`, not
zero padded, hence not of the `"YYYY-MM"` shape) is silently accepted:
the call returns a normal (here empty) result instead of reporting an
InvalidRange-style failure, even though the input holds a January 2019
row the caller asked for. -/
theorem C9_counterexample :
    fineval.get_eomonth_price [⟨2019, 1, 3, [("Close", 10)]⟩] "2019-1" "2019-12"
      "Close" 2025 6 = .ok [] := by decide

/-- C9 amended: the extractor performs no validation of `start_month` or
`end_month`; whenever every row carries `price_col` the call returns a
normal result for arbitrary (also malformed) month strings, which are
used as-is in the lexicographic comparison and never corrected. -/
theorem C9_no_range_validation (df : List Row)
    (start_month end_month price_col : String) (todayYear todayMonth : Nat)
    (h : ∀ r ∈ df, (r.fields.lookup price_col).isSome = true) :
    ∃ out, fineval.get_eomonth_price df start_month end_month price_col
      todayYear todayMonth = .ok out := by
  have hd := dfPrice_ok_of_forall price_col h
  rw [fineval.get_eomonth_price, eomFrame, hd]
  exact ⟨_, rfl⟩

/-- Witness for the C9 amended theorem at a malformed start month. -/
theorem C9_no_range_validation_witness :
    ∃ out, fineval.get_eomonth_price [⟨2019, 1, 3, [("Close", 10)]⟩] "garbage"
      "also-garbage" "Close" 2025 6 = .ok out :=
  C9_no_range_validation [⟨2019, 1, 3, [("Close", 10)]⟩] "garbage" "also-garbage"
    "Close" 2025 6 (by decide)

/-- C7 counterexample: called with equal arguments, the two copies return
different results even after projecting both to their (date, price)
payload: the imaneval.py copy never applies the month-range filter, so a
December 2018 row survives there but not in the fineval.py copy. -/
theorem C7_counterexample :
    Except.map (List.map EomRow.toPair)
      (fineval.get_eomonth_price [⟨2018, 12, 31, [("Close", 10)]⟩] "2019-01"
        "2019-02" "Close" 2025 6)
    ≠ Except.map (List.map EomRow2.toPair)
      (imaneval.get_eomonth_price [⟨2018, 12, 31, [("Close", 10)]⟩] "2019-01"
        "2019-02" "Close") := by decide

/-- C7 amended: the two copies agree on the shared merged end-of-month
frame; the imaneval.py copy returns its (date, price) projection
unfiltered, while the fineval.py copy returns its rows filtered to the
resolved month range with the `year_mo` column retained. -/
theorem C7_copies_agree_on_frame (df : List Row)
    (start_month end_month price_col : String) (todayYear todayMonth : Nat)
    (frame : List EomRow) (hf : eomFrame price_col df = .ok frame) :
    imaneval.get_eomonth_price df start_month end_month price_col
        = .ok (frame.map (fun r => EomRow2.mk r.date r.price)) ∧
      fineval.get_eomonth_price df start_month end_month price_col todayYear todayMonth
        = .ok (frame.filter (fun r => strLeB start_month r.year_mo &&
            strLeB r.year_mo (fineval.resolve_end_month todayYear todayMonth end_month))) := by
  rw [imaneval.get_eomonth_price, fineval.get_eomonth_price, hf]
  exact ⟨rfl, rfl⟩

/-- Witness for the C7 amended theorem at a concrete input. -/
theorem C7_copies_agree_on_frame_witness :
    imaneval.get_eomonth_price [⟨2018, 12, 31, [("Close", 10)]⟩] "2019-01" "2019-02"
        "Close" = .ok (([⟨"2018-12-31", 10, "2018-12"⟩] : List EomRow).map (fun r => EomRow2.mk r.date r.price)) ∧
      fineval.get_eomonth_price [⟨2018, 12, 31, [("Close", 10)]⟩] "2019-01" "2019-02"
        "Close" 2025 6
        = .ok ([⟨"2018-12-31", 10, "2018-12"⟩].filter (fun r => strLeB "2019-01" r.year_mo &&
            strLeB r.year_mo (fineval.resolve_end_month 2025 6 "2019-02"))) :=
  C7_copies_agree_on_frame [⟨2018, 12, 31, [("Close", 10)]⟩] "2019-01" "2019-02"
    "Close" 2025 6 [⟨"2018-12-31", 10, "2018-12"⟩] (by decide)

/-- C8 counterexample: the collection returned by the fineval.py copy
does not consist of (date, price) only: its rows keep the intermediate
month key column `year_mo` (line 206 selects three columns), as the
concrete run shows. -/
theorem C8_counterexample :
    fineval.returned_columns "Close" ≠ ["date", "Close"] ∧
      fineval.get_eomonth_price [⟨2019, 1, 3, [("Close", 10)]⟩] "2019-01" "2019-12"
        "Close" 2025 6 = .ok [⟨"2019-01-03", 10, "2019-01"⟩] := by decide

/-- C8 amended: the imaneval.py copy returns exactly the two fields
(date, price value); the fineval.py copy additionally retains the
intermediate `year_mo` month key as a third field. -/
theorem C8_returned_columns (price_col : String) :
    imaneval.returned_columns price_col = ["date", price_col] ∧
      fineval.returned_columns price_col = ["date", price_col, "year_mo"] :=
  ⟨rfl, rfl⟩

/-- C5 counterexample: reversing the input rows changes the output of
`get_eomonth_price` (the inner merge preserves the left frame's row
order and no final sort exists), and on the reversed input the output is
not ascending by date. -/
theorem C5_counterexample :
    fineval.get_eomonth_price
        [⟨2019, 2, 5, [("Close", 12)]⟩, ⟨2019, 1, 15, [("Close", 11)]⟩,
          ⟨2019, 1, 3, [("Close", 10)]⟩] "2019-01" "2019-12" "Close" 2025 6
      = .ok [⟨"2019-02-05", 12, "2019-02"⟩, ⟨"2019-01-15", 11, "2019-01"⟩] ∧
    fineval.get_eomonth_price
        [⟨2019, 1, 3, [("Close", 10)]⟩, ⟨2019, 1, 15, [("Close", 11)]⟩,
          ⟨2019, 2, 5, [("Close", 12)]⟩] "2019-01" "2019-12" "Close" 2025 6
      = .ok [⟨"2019-01-15", 11, "2019-01"⟩, ⟨"2019-02-05", 12, "2019-02"⟩] ∧
    strLeB "2019-02-05" "2019-01-15" = false := by
  exact ⟨by decide, by decide, by decide⟩

theorem segScanFrom_invariant (hm : String → Bool) :
    ∀ (lines : List String) (st : SegState) (pos : Nat),
      st.stock_table_last_lines.length ≤ st.stock_table_headers.length →
      (st.found_table_header = true →
        st.stock_table_last_lines.length + 1 ≤ st.stock_table_headers.length) →
      (segScanFrom hm st pos lines).stock_table_last_lines.length
          ≤ (segScanFrom hm st pos lines).stock_table_headers.length ∧
        ((segScanFrom hm st pos lines).found_table_header = true →
          (segScanFrom hm st pos lines).stock_table_last_lines.length + 1
            ≤ (segScanFrom hm st pos lines).stock_table_headers.length)
  | [], _, _, ha, hb => ⟨ha, hb⟩
  | line :: rest, st, pos, ha, hb => by
    rw [segScanFrom]
    by_cases h1 : hm line = true
    · refine segScanFrom_invariant hm rest _ (pos + 1) ?_ ?_ <;>
        simp [segStep, h1] <;> omega
    · by_cases h2 : (st.found_table_header && List.isPrefixOf "| ".data line.data) = true
      · refine segScanFrom_invariant hm rest _ (pos + 1) ?_ ?_ <;>
          simp [segStep, h1, h2] <;> [exact ha; exact hb]
      · by_cases h3 : (st.found_table_header && (line.length == 0)) = true
        · have hflag : st.found_table_header = true := (Bool.and_eq_true_iff.mp h3).1
          have hc := hb hflag
          refine segScanFrom_invariant hm rest _ (pos + 1) ?_ ?_ <;>
            simp [segStep, h1, h2, h3] <;> omega
        · refine segScanFrom_invariant hm rest _ (pos + 1) ?_ ?_ <;>
            simp [segStep, h1, h2, h3] <;> [exact ha; exact hb]

/-- C10: when the scan of `get_vang_stock_table_segs` ends with a table
segment still open (a matched header whose segment is not followed by an
empty line before the end of the input), the recorded end positions are
fewer than the matched headers, so the positional zip silently drops the
trailing segment and the returned tuple has fewer spans than headers
matched. -/
theorem C10_trailing_segment_dropped (report_lines : List String)
    (header_match : String → Bool)
    (h : (segScan header_match report_lines).found_table_header = true) :
    (get_vang_stock_table_segs report_lines header_match).length
      < (segScan header_match report_lines).stock_table_headers.length := by
  have hinv := segScanFrom_invariant header_match report_lines ⟨[], [], false⟩ 0
    (by simp) (by simp)
  rw [segScan] at h
  have hlt := hinv.2 h
  simp only [get_vang_stock_table_segs, segScan, List.length_zip] at *
  omega

/-- Witness for C10: a header whose table runs to the last line yields an
empty span tuple although one header matched. -/
theorem C10_trailing_segment_dropped_witness :
    (get_vang_stock_table_segs ["h", "| a"] (fun l => l = "h")).length
      < (segScan (fun l => l = "h") ["h", "| a"]).stock_table_headers.length :=
  C10_trailing_segment_dropped ["h", "| a"] (fun l => l = "h") (by decide)

theorem listLtB_iff : ∀ a b : List Char, listLtB a b = true ↔ List.Lex (· < ·) a b
  | [], [] => by
    simp [listLtB]
  | [], b :: bs => by
    simp only [listLtB, true_iff]
    exact List.Lex.nil
  | a :: as, [] => by
    simp only [listLtB, Bool.false_eq_true, false_iff]
    exact List.Lex.not_nil_right _ _
  | a :: as, b :: bs => by
    rw [listLtB]
    by_cases hab : a < b
    · simp only [hab, if_true, true_iff]
      exact List.Lex.rel hab
    · by_cases hba : b < a
      · simp only [hab, hba, if_false, if_true, Bool.false_eq_true, false_iff]
        intro h
        cases h with
        | cons h' => exact lt_irrefl _ hba
        | rel h' => exact absurd h' (lt_asymm hba)
      · have heq : a = b := le_antisymm (not_lt.mp hba) (not_lt.mp hab)
        subst heq
        simp only [hab, hba, if_false]
        rw [List.Lex.cons_iff]
        exact listLtB_iff as bs

theorem strLeB_iff_not_lex (a b : String) :
    strLeB a b = true ↔ ¬ List.Lex (· < ·) b.data a.data := by
  rw [strLeB, strLtB, Bool.not_eq_true', ← listLtB_iff]
  simp

theorem strLeB_total (a b : String) : strLeB a b = true ∨ strLeB b a = true := by
  rw [strLeB_iff_not_lex, strLeB_iff_not_lex]
  have inst : IsAsymm (List Char) (List.Lex (· < ·)) := inferInstance
  by_cases h : List.Lex (· < ·) b.data a.data
  · exact Or.inr (inst.asymm _ _ h)
  · exact Or.inl h

theorem strLeB_antisymm {a b : String} (h₁ : strLeB a b = true)
    (h₂ : strLeB b a = true) : a = b := by
  rw [strLeB_iff_not_lex] at h₁ h₂
  have inst : IsTrichotomous (List Char) (List.Lex (· < ·)) := inferInstance
  rcases @IsTrichotomous.trichotomous _ _ inst a.data b.data with h | h | h
  · exact absurd h h₂
  · exact String.ext h
  · exact absurd h h₁

theorem strLeB_trans {a b c : String} (h₁ : strLeB a b = true)
    (h₂ : strLeB b c = true) : strLeB a c = true := by
  rw [strLeB_iff_not_lex] at h₁ h₂ ⊢
  have instt : IsTrans (List Char) (List.Lex (· < ·)) := inferInstance
  have inst : IsTrichotomous (List Char) (List.Lex (· < ·)) := inferInstance
  intro hca
  rcases @IsTrichotomous.trichotomous _ _ inst a.data b.data with h | h | h
  · exact h₂ (instt.trans _ _ _ hca h)
  · exact h₂ (h ▸ hca)
  · exact h₁ h

theorem strLeB_refl (a : String) : strLeB a a = true := by
  rw [strLeB_iff_not_lex]
  have inst : IsAsymm (List Char) (List.Lex (· < ·)) := inferInstance
  intro h
  exact inst.asymm _ _ h h

theorem digitChar_inj_lt : ∀ a < 10, ∀ b < 10, Nat.digitChar a = Nat.digitChar b → a = b := by
  decide

theorem toDigitsCore_succ_eq (fuel n : Nat) (acc : List Char) :
    Nat.toDigitsCore 10 (fuel + 1) n acc =
      if n / 10 = 0 then Nat.digitChar (n % 10) :: acc
      else Nat.toDigitsCore 10 fuel (n / 10) (Nat.digitChar (n % 10) :: acc) := rfl

theorem toDigitsCore_step {fuel : Nat} (n : Nat) (acc : List Char)
    (hf : 0 < fuel) (hn : 10 ≤ n) :
    Nat.toDigitsCore 10 fuel n acc
      = Nat.toDigitsCore 10 (fuel - 1) (n / 10) (Nat.digitChar (n % 10) :: acc) := by
  obtain ⟨f, rfl⟩ : ∃ f, fuel = f + 1 := ⟨fuel - 1, by omega⟩
  rw [toDigitsCore_succ_eq, if_neg (by omega)]
  simp

theorem toDigitsCore_base {fuel n : Nat} (acc : List Char)
    (hf : 0 < fuel) (hn : n ≤ 9) :
    Nat.toDigitsCore 10 fuel n acc = Nat.digitChar n :: acc := by
  obtain ⟨f, rfl⟩ : ∃ f, fuel = f + 1 := ⟨fuel - 1, by omega⟩
  rw [toDigitsCore_succ_eq, if_pos (by omega), Nat.mod_eq_of_lt (by omega)]

theorem repr_data_one {d : Nat} (h : d ≤ 9) : (Nat.repr d).data = [Nat.digitChar d] := by
  show Nat.toDigitsCore 10 (d + 1) d [] = _
  rw [toDigitsCore_base _ (by omega) h]

theorem repr_data_two {m : Nat} (h1 : 10 ≤ m) (h2 : m ≤ 99) :
    (Nat.repr m).data = [Nat.digitChar (m / 10), Nat.digitChar (m % 10)] := by
  show Nat.toDigitsCore 10 (m + 1) m [] = _
  rw [toDigitsCore_step _ _ (by omega) h1]
  rw [toDigitsCore_base _ (by omega) (by omega)]

theorem repr_data_four {y : Nat} (h1 : 1000 ≤ y) (h2 : y ≤ 9999) :
    (Nat.repr y).data = [Nat.digitChar (y / 1000), Nat.digitChar (y / 100 % 10),
      Nat.digitChar (y / 10 % 10), Nat.digitChar (y % 10)] := by
  show Nat.toDigitsCore 10 (y + 1) y [] = _
  rw [toDigitsCore_step _ _ (by omega) (by omega)]
  rw [toDigitsCore_step _ _ (by omega) (by omega)]
  rw [toDigitsCore_step _ _ (by omega) (by omega)]
  rw [toDigitsCore_base _ (by omega) (by omega)]
  simp only [Nat.div_div_eq_div_mul]

theorem zfill_data (w : Nat) (s : String) :
    (zfill w s).data = List.replicate (w - s.data.length) '0' ++ s.data := rfl

theorem zfill2_repr_data {m : Nat} (h : m ≤ 99) :
    (zfill 2 (Nat.repr m)).data = [Nat.digitChar (m / 10), Nat.digitChar (m % 10)] := by
  by_cases h9 : m ≤ 9
  · rw [zfill_data, repr_data_one h9]
    have h0 : m / 10 = 0 := by omega
    have hm : m % 10 = m := by omega
    rw [h0, hm]
    rfl
  · rw [zfill_data, repr_data_two (by omega) h]
    rfl

theorem zfill4_repr {y : Nat} (h1 : 1000 ≤ y) (h2 : y ≤ 9999) :
    zfill 4 (Nat.repr y) = Nat.repr y := by
  apply String.ext
  rw [zfill_data, repr_data_four h1 h2]
  rfl

theorem yearMoYM_data {y m : Nat} (hy1 : 1000 ≤ y) (hy2 : y ≤ 9999) (hm : m ≤ 99) :
    (yearMoYM y m).data = [Nat.digitChar (y / 1000), Nat.digitChar (y / 100 % 10),
      Nat.digitChar (y / 10 % 10), Nat.digitChar (y % 10), '-',
      Nat.digitChar (m / 10), Nat.digitChar (m % 10)] := by
  rw [yearMoYM, String.data_append, String.data_append, repr_data_four hy1 hy2,
    zfill2_repr_data hm]
  rfl

theorem dateYMD_data {y m d : Nat} (hy1 : 1000 ≤ y) (hy2 : y ≤ 9999)
    (hm : m ≤ 99) (hd : d ≤ 99) :
    (dateYMD y m d).data = [Nat.digitChar (y / 1000), Nat.digitChar (y / 100 % 10),
      Nat.digitChar (y / 10 % 10), Nat.digitChar (y % 10), '-',
      Nat.digitChar (m / 10), Nat.digitChar (m % 10), '-',
      Nat.digitChar (d / 10), Nat.digitChar (d % 10)] := by
  rw [dateYMD, zfill4_repr hy1 hy2, String.data_append, String.data_append,
    String.data_append, String.data_append, repr_data_four hy1 hy2,
    zfill2_repr_data hm, zfill2_repr_data hd]
  rfl

theorem dateYMD_eq_eom_iff {y m d y' m' d' : Nat}
    (hy1 : 1000 ≤ y) (hy2 : y ≤ 9999) (hm : m ≤ 99) (hd : d ≤ 99)
    (hy1' : 1000 ≤ y') (hy2' : y' ≤ 9999) (hm' : m' ≤ 99) (hd' : d' ≤ 99) :
    dateYMD y m d = yearMoYM y' m' ++ "-" ++ zfill 2 (Nat.repr d') ↔
      y = y' ∧ m = m' ∧ d = d' := by
  constructor
  · intro h
    have hdata := congrArg String.data h
    rw [dateYMD_data hy1 hy2 hm hd, String.data_append, String.data_append,
      yearMoYM_data hy1' hy2' hm', zfill2_repr_data hd'] at hdata
    simp only [List.cons_append, List.nil_append, List.cons.injEq, and_true,
      true_and] at hdata
    obtain ⟨e1, e2, e3, e4, e5, e6, e7, e8⟩ := hdata
    have q1 := digitChar_inj_lt _ (by omega) _ (by omega) e1
    have q2 := digitChar_inj_lt _ (by omega) _ (by omega) e2
    have q3 := digitChar_inj_lt _ (by omega) _ (by omega) e3
    have q4 := digitChar_inj_lt _ (by omega) _ (by omega) e4
    have q5 := digitChar_inj_lt _ (by omega) _ (by omega) e5
    have q6 := digitChar_inj_lt _ (by omega) _ (by omega) e6
    have q7 := digitChar_inj_lt _ (by omega) _ (by omega) e7
    have q8 := digitChar_inj_lt _ (by omega) _ (by omega) e8
    exact ⟨by omega, by omega, by omega⟩
  · rintro ⟨rfl, rfl, rfl⟩
    apply String.ext
    rw [dateYMD_data hy1 hy2 hm hd, String.data_append, String.data_append,
      yearMoYM_data hy1 hy2 hm, zfill2_repr_data hd]
    rfl

theorem yearMoYM_inj {y m y' m' : Nat}
    (hy1 : 1000 ≤ y) (hy2 : y ≤ 9999) (hm : m ≤ 99)
    (hy1' : 1000 ≤ y') (hy2' : y' ≤ 9999) (hm' : m' ≤ 99) :
    yearMoYM y m = yearMoYM y' m' ↔ y = y' ∧ m = m' := by
  constructor
  · intro h
    have hdata := congrArg String.data h
    rw [yearMoYM_data hy1 hy2 hm, yearMoYM_data hy1' hy2' hm'] at hdata
    simp only [List.cons.injEq, and_true, true_and] at hdata
    obtain ⟨e1, e2, e3, e4, e5, e6⟩ := hdata
    have q1 := digitChar_inj_lt _ (by omega) _ (by omega) e1
    have q2 := digitChar_inj_lt _ (by omega) _ (by omega) e2
    have q3 := digitChar_inj_lt _ (by omega) _ (by omega) e3
    have q4 := digitChar_inj_lt _ (by omega) _ (by omega) e4
    have q5 := digitChar_inj_lt _ (by omega) _ (by omega) e5
    have q6 := digitChar_inj_lt _ (by omega) _ (by omega) e6
    exact ⟨by omega, by omega⟩
  · rintro ⟨rfl, rfl⟩
    rfl

theorem toPRow_pvalid {r : Row} (price_col : String) (h : ValidRow r) :
    PValid (toPRow price_col r) :=
  ⟨r.year, r.month, r.day, h.1, h.2.1, h.2.2.1, h.2.2.2.1, h.2.2.2.2.1, h.2.2.2.2.2,
    rfl, rfl, rfl⟩

theorem foldr_max_le {l : List Nat} {b c : Nat} (hb : b ≤ c) (h : ∀ a ∈ l, a ≤ c) :
    l.foldr max b ≤ c := by
  induction l with
  | nil => exact hb
  | cons a l ih =>
    simp only [List.foldr_cons]
    exact max_le (h a (List.mem_cons_self a l)) (ih (fun x hx => h x (List.mem_cons_of_mem a hx)))

theorem le_foldr_max {l : List Nat} {b a : Nat} (ha : a ∈ l) : a ≤ l.foldr max b := by
  induction l with
  | nil => cases ha
  | cons x l ih =>
    simp only [List.foldr_cons]
    rcases List.mem_cons.mp ha with rfl | h
    · exact le_max_left _ _
    · exact le_trans (ih h) (le_max_right _ _)

theorem foldr_max_zero_mem (l : List Nat) : l.foldr max 0 = 0 ∨ l.foldr max 0 ∈ l := by
  induction l with
  | nil => exact Or.inl rfl
  | cons a l ih =>
    simp only [List.foldr_cons]
    rcases max_choice a (l.foldr max 0) with h | h
    · rw [h]
      exact Or.inr (List.mem_cons_self a l)
    · rw [h]
      rcases ih with h0 | hm
      · exact Or.inl h0
      · exact Or.inr (List.mem_cons_of_mem a hm)

theorem maxDayIn_le {ps : List PRow} (hps : ∀ p ∈ ps, PValid p) (k : String) :
    maxDayIn ps k ≤ 31 := by
  refine foldr_max_le (by omega) ?_
  intro a ha
  obtain ⟨p, hp, rfl⟩ := List.mem_map.mp ha
  obtain ⟨y, m, d, _, _, _, _, _, hd, _, _, hday⟩ := hps p (List.mem_filter.mp hp).1
  omega

theorem le_maxDayIn {ps : List PRow} {p : PRow} (hp : p ∈ ps) :
    p.day ≤ maxDayIn ps p.year_mo := by
  refine le_foldr_max ?_
  refine List.mem_map.mpr ⟨p, ?_, rfl⟩
  exact List.mem_filter.mpr ⟨hp, by simp⟩

theorem maxDayIn_attained {ps : List PRow} {p₀ : PRow} (hp₀ : p₀ ∈ ps)
    (hday : 1 ≤ p₀.day) :
    ∃ p ∈ ps, p.year_mo = p₀.year_mo ∧ p.day = maxDayIn ps p₀.year_mo := by
  have hle := le_maxDayIn hp₀
  rcases foldr_max_zero_mem ((ps.filter (fun p => p.year_mo == p₀.year_mo)).map PRow.day) with h0 | hm
  · rw [maxDayIn] at hle ⊢
    omega
  · obtain ⟨p, hp, hpd⟩ := List.mem_map.mp hm
    have hmem := List.mem_filter.mp hp
    exact ⟨p, hmem.1, by simpa using hmem.2, hpd⟩

theorem mem_sortedKeys {ps : List PRow} {k : String} :
    k ∈ sortedKeys ps ↔ ∃ p ∈ ps, p.year_mo = k := by
  simp [sortedKeys, List.mem_dedup, List.mem_map]

theorem nodup_sortedKeys (ps : List PRow) : (sortedKeys ps).Nodup :=
  (List.perm_insertionSort _ _).nodup_iff.mpr (List.nodup_dedup _)

theorem filterMap_ite_const {α β : Type} (P : α → Prop) [DecidablePred P] (o : β)
    (l : List α) :
    (l.filterMap fun a => if P a then some o else none)
      = (l.filter (fun a => decide (P a))).map (fun _ => o) := by
  induction l with
  | nil => rfl
  | cons a l ih =>
    by_cases h : P a
    · simp [List.filterMap_cons, List.filter_cons, h, ih]
    · simp [List.filterMap_cons, List.filter_cons, h, ih]

theorem flatMap_congr_mem {α β : Type} {l : List α} {f g : α → List β}
    (h : ∀ a ∈ l, f a = g a) : l.flatMap f = l.flatMap g := by
  induction l with
  | nil => rfl
  | cons a l ih =>
    simp only [List.flatMap_cons]
    rw [h a (List.mem_cons_self a l), ih (fun x hx => h x (List.mem_cons_of_mem a hx))]

theorem flatMap_ite_single {α β : Type} (c : α → Bool) (h : α → β) (l : List α) :
    (l.flatMap fun a => if c a then [h a] else []) = (l.filter c).map h := by
  induction l with
  | nil => rfl
  | cons a l ih =>
    by_cases hc : c a = true
    · simp [List.flatMap_cons, List.filter_cons, hc, ih]
    · simp [List.flatMap_cons, List.filter_cons, hc, ih]

theorem filter_eq_ite_singleton {l : List String} (hnd : l.Nodup) (a : String)
    (ha : a ∈ l) (P : String → Prop) [DecidablePred P] (Q : Prop) [Decidable Q]
    (hP : ∀ k ∈ l, P k ↔ (k = a ∧ Q)) :
    l.filter (fun k => decide (P k)) = if Q then [a] else [] := by
  induction l with
  | nil => cases ha
  | cons b l ih =>
    have hnd' := List.nodup_cons.mp hnd
    by_cases hba : b = a
    · subst hba
      have hPb : P b ↔ Q := by
        rw [hP b (List.mem_cons_self b l)]
        simp
      have hrest : l.filter (fun k => decide (P k)) = [] := by
        rw [List.filter_eq_nil_iff]
        intro k hk
        simp only [decide_eq_true_eq]
        rw [hP k (List.mem_cons_of_mem b hk)]
        rintro ⟨rfl, _⟩
        exact hnd'.1 hk
      by_cases hq : Q
      · rw [List.filter_cons, if_pos (by simp [hPb, hq]), hrest, if_pos hq]
      · rw [List.filter_cons, if_neg (by simp [hPb, hq]), hrest, if_neg hq]
    · have ha' : a ∈ l := by
        rcases List.mem_cons.mp ha with h | h
        · exact absurd h.symm hba
        · exact h
      have hPb : ¬ P b := by
        rw [hP b (List.mem_cons_self b l)]
        rintro ⟨rfl, _⟩
        exact hba rfl
      rw [List.filter_cons, if_neg (by simpa)]
      exact ih hnd'.2 ha' (fun k hk => hP k (List.mem_cons_of_mem b hk))

theorem mergeEom_eq_filter {ps : List PRow} (hps : ∀ p ∈ ps, PValid p) :
    mergeEom ps (eomTable ps)
      = (ps.filter (fun p => p.day == maxDayIn ps p.year_mo)).map
          (fun p => ⟨p.date, p.price, p.year_mo⟩) := by
  have hpoint : ∀ p ∈ ps, ((eomTable ps).filterMap fun e =>
      if p.date = e.date then some (⟨p.date, p.price, p.year_mo⟩ : EomRow) else none)
      = if (p.day == maxDayIn ps p.year_mo)
          then [(⟨p.date, p.price, p.year_mo⟩ : EomRow)] else [] := by
    intro p hp
    obtain ⟨y, m, d, hy1, hy2, hm1, hm2, hd1, hd2, hym, hdate, hday⟩ := hps p hp
    rw [eomTable, List.filterMap_map]
    have hcomp : ((fun e : EomKeyRow =>
        if p.date = e.date then some (⟨p.date, p.price, p.year_mo⟩ : EomRow) else none) ∘
        (fun k => (⟨k, maxDayIn ps k,
          k ++ "-" ++ zfill 2 (Nat.repr (maxDayIn ps k))⟩ : EomKeyRow)))
        = fun k => if p.date = k ++ "-" ++ zfill 2 (Nat.repr (maxDayIn ps k))
            then some (⟨p.date, p.price, p.year_mo⟩ : EomRow) else none := rfl
    rw [hcomp]
    rw [filterMap_ite_const
      (fun k => p.date = k ++ "-" ++ zfill 2 (Nat.repr (maxDayIn ps k)))
      (⟨p.date, p.price, p.year_mo⟩ : EomRow) (sortedKeys ps)]
    have hiff : ∀ k ∈ sortedKeys ps,
        (p.date = k ++ "-" ++ zfill 2 (Nat.repr (maxDayIn ps k))) ↔
          (k = p.year_mo ∧ p.day = maxDayIn ps p.year_mo) := by
      intro k hk
      obtain ⟨q, hq, hqk⟩ := mem_sortedKeys.mp hk
      obtain ⟨y', m', d', hy1', hy2', hm1', hm2', hd1', hd2', hym', hdate', hday'⟩ :=
        hps q hq
      subst hqk
      have hmd : maxDayIn ps q.year_mo ≤ 31 := maxDayIn_le hps _
      rw [hym'] at hmd
      rw [hdate, hym', dateYMD_eq_eom_iff hy1 hy2 (by omega) (by omega) hy1' hy2'
        (by omega) (by omega), hym, hday,
        yearMoYM_inj hy1' hy2' (by omega) hy1 hy2 (by omega)]
      constructor
      · rintro ⟨rfl, rfl, h3⟩
        exact ⟨⟨rfl, rfl⟩, h3⟩
      · rintro ⟨⟨rfl, rfl⟩, h3⟩
        exact ⟨rfl, rfl, h3⟩
    rw [filter_eq_ite_singleton (nodup_sortedKeys ps) p.year_mo
      (mem_sortedKeys.mpr ⟨p, hp, rfl⟩) _ (p.day = maxDayIn ps p.year_mo) hiff]
    by_cases hq : p.day = maxDayIn ps p.year_mo
    · simp [hq]
    · simp [hq]
  rw [mergeEom, flatMap_congr_mem hpoint, flatMap_ite_single]

theorem countP_le_one_of_nodup_map {α β : Type} {l : List α} {f : α → β} {Q : α → Bool}
    (hnd : (l.map f).Nodup) (h : ∀ a ∈ l, ∀ b ∈ l, Q a = true → Q b = true → f a = f b) :
    l.countP Q ≤ 1 := by
  induction l with
  | nil => simp
  | cons a l ih =>
    rw [List.map_cons, List.nodup_cons] at hnd
    rw [List.countP_cons]
    by_cases hQ : Q a = true
    · have hzero : l.countP Q = 0 := by
        rw [List.countP_eq_zero]
        intro b hb hQb
        have hfb : f b = f a :=
          h b (List.mem_cons_of_mem a hb) a (List.mem_cons_self a l) hQb hQ
        exact hnd.1 (hfb ▸ List.mem_map.mpr ⟨b, hb, rfl⟩)
      rw [hzero, if_pos hQ]
    · have hrec := ih hnd.2
        (fun x hx y hy => h x (List.mem_cons_of_mem a hx) y (List.mem_cons_of_mem a hy))
      rw [if_neg hQ]
      omega

/-- C1: every output row of `get_eomonth_price` stems from an input row
whose day of month is maximal among the input rows of its (year, month);
the output date and price are that row's date and `price_col` value. This
holds for every input order, since the input `df` is universally
quantified. -/
theorem C1_max_day_selection (df : List Row)
    (start_month end_month price_col : String) (todayYear todayMonth : Nat)
    (hv : ∀ r ∈ df, ValidRow r) (out : List EomRow)
    (hout : fineval.get_eomonth_price df start_month end_month price_col
      todayYear todayMonth = .ok out)
    (o : EomRow) (ho : o ∈ out) :
    ∃ r ∈ df, o.date = r.dateStr ∧ o.year_mo = r.yearMo ∧
      o.price = r.priceVal price_col ∧
      ∀ r' ∈ df, r'.yearMo = r.yearMo → r'.day ≤ r.day := by
  cases hframe : eomFrame price_col df with
  | error e => rw [fineval.get_eomonth_price, hframe] at hout; cases hout
  | ok l =>
    rw [fineval.get_eomonth_price, hframe] at hout
    cases hout
    obtain ⟨hall, hl⟩ := eomFrame_ok_inv price_col hframe
    have hps : ∀ p ∈ df.map (toPRow price_col), PValid p := by
      intro p hp
      obtain ⟨r, hr, rfl⟩ := List.mem_map.mp hp
      exact toPRow_pvalid price_col (hv r hr)
    have ho' : o ∈ l := (List.mem_filter.mp ho).1
    rw [hl, mergeEom_eq_filter hps] at ho'
    obtain ⟨p, hpf, rfl⟩ := List.mem_map.mp ho'
    have hpfil := List.mem_filter.mp hpf
    obtain ⟨r, hr, rfl⟩ := List.mem_map.mp hpfil.1
    have hcond : (toPRow price_col r).day
        = maxDayIn (df.map (toPRow price_col)) (toPRow price_col r).year_mo := by
      simpa using hpfil.2
    refine ⟨r, hr, rfl, rfl, rfl, ?_⟩
    intro r' hr' hym
    have hmem' : toPRow price_col r' ∈ df.map (toPRow price_col) :=
      List.mem_map.mpr ⟨r', hr', rfl⟩
    have hle := le_maxDayIn hmem'
    have hymp : (toPRow price_col r').year_mo = (toPRow price_col r).year_mo := hym
    rw [hymp] at hle
    calc r'.day = (toPRow price_col r').day := rfl
    _ ≤ maxDayIn (df.map (toPRow price_col)) (toPRow price_col r).year_mo := hle
    _ = (toPRow price_col r).day := hcond.symm
    _ = r.day := rfl

/-- Witness for C1 at the spec's example month with days 3, 15, 28. -/
theorem C1_max_day_selection_witness :
    ∃ r ∈ ([⟨2019, 1, 3, [("Close", 10)]⟩, ⟨2019, 1, 15, [("Close", 11)]⟩,
        ⟨2019, 1, 28, [("Close", 12)]⟩] : List Row),
      (EomRow.mk "2019-01-28" 12 "2019-01").date = r.dateStr ∧
      (EomRow.mk "2019-01-28" 12 "2019-01").year_mo = r.yearMo ∧
      (EomRow.mk "2019-01-28" 12 "2019-01").price = r.priceVal "Close" ∧
      ∀ r' ∈ ([⟨2019, 1, 3, [("Close", 10)]⟩, ⟨2019, 1, 15, [("Close", 11)]⟩,
        ⟨2019, 1, 28, [("Close", 12)]⟩] : List Row),
        r'.yearMo = r.yearMo → r'.day ≤ r.day :=
  C1_max_day_selection
    [⟨2019, 1, 3, [("Close", 10)]⟩, ⟨2019, 1, 15, [("Close", 11)]⟩,
      ⟨2019, 1, 28, [("Close", 12)]⟩] "2019-01" "2019-12" "Close" 2025 6
    (by decide) [⟨"2019-01-28", 12, "2019-01"⟩] (by decide)
    ⟨"2019-01-28", 12, "2019-01"⟩ (by decide)

/-- C2: for a valid input series with pairwise distinct trade dates, the
output of `get_eomonth_price` never carries two rows with the same month
key, and every month key inside the resolved inclusive range that occurs
in the input gets exactly one output row. -/
theorem C2_exactly_one_per_month (df : List Row)
    (start_month end_month price_col : String) (todayYear todayMonth : Nat)
    (hv : ∀ r ∈ df, ValidRow r)
    (hnd : (df.map fun r => (r.year, r.month, r.day)).Nodup)
    (out : List EomRow)
    (hout : fineval.get_eomonth_price df start_month end_month price_col
      todayYear todayMonth = .ok out) :
    (∀ k : String, out.countP (fun o => o.year_mo == k) ≤ 1) ∧
    (∀ k : String, strLeB start_month k = true →
      strLeB k (fineval.resolve_end_month todayYear todayMonth end_month) = true →
      (∃ r ∈ df, r.yearMo = k) →
      out.countP (fun o => o.year_mo == k) = 1) := by
  cases hframe : eomFrame price_col df with
  | error e => rw [fineval.get_eomonth_price, hframe] at hout; cases hout
  | ok l =>
    rw [fineval.get_eomonth_price, hframe] at hout
    cases hout
    obtain ⟨hall, hl⟩ := eomFrame_ok_inv price_col hframe
    have hps : ∀ p ∈ df.map (toPRow price_col), PValid p := by
      intro p hp
      obtain ⟨r, hr, rfl⟩ := List.mem_map.mp hp
      exact toPRow_pvalid price_col (hv r hr)
    have hcount : ∀ k : String,
        (l.filter (fun r => strLeB start_month r.year_mo && strLeB r.year_mo
            (fineval.resolve_end_month todayYear todayMonth end_month))).countP
          (fun o => o.year_mo == k)
        = df.countP (fun r => ((r.yearMo == k) &&
            (strLeB start_month r.yearMo && strLeB r.yearMo
              (fineval.resolve_end_month todayYear todayMonth end_month))) &&
            (r.day == maxDayIn (df.map (toPRow price_col)) r.yearMo)) := by
      intro k
      rw [hl, mergeEom_eq_filter hps]
      rw [List.countP_filter, List.countP_map, List.countP_filter, List.countP_map]
      apply List.countP_congr
      intro r hr
      simp only [Function.comp]
      constructor
      · intro hb
        simp only [Bool.and_eq_true] at hb ⊢
        exact ⟨⟨hb.1.1, hb.1.2⟩, hb.2⟩
      · intro hb
        simp only [Bool.and_eq_true] at hb ⊢
        exact ⟨⟨hb.1.1, hb.1.2⟩, hb.2⟩
    constructor
    · intro k
      rw [hcount k]
      apply countP_le_one_of_nodup_map hnd
      intro a ha b hb hQa hQb
      simp only [Bool.and_eq_true, beq_iff_eq] at hQa hQb
      obtain ⟨⟨hak, _⟩, haday⟩ := hQa
      obtain ⟨⟨hbk, _⟩, hbday⟩ := hQb
      obtain ⟨ha1, ha2, ha3, ha4, ha5, ha6⟩ := hv a ha
      obtain ⟨hb1, hb2, hb3, hb4, hb5, hb6⟩ := hv b hb
      have hym : a.yearMo = b.yearMo := by rw [hak, hbk]
      have hym' := (yearMoYM_inj ha1 ha2 (by omega) hb1 hb2 (by omega)).mp hym
      have hday : a.day = b.day := by
        rw [haday, hbday, hak, hbk]
      simp only [Prod.mk.injEq]
      exact ⟨hym'.1, hym'.2, hday⟩
    · intro k hks hke hex
      have hle1 : (l.filter (fun r => strLeB start_month r.year_mo &&
          strLeB r.year_mo (fineval.resolve_end_month todayYear todayMonth
            end_month))).countP (fun o => o.year_mo == k) ≤ 1 := by
        rw [hcount k]
        apply countP_le_one_of_nodup_map hnd
        intro a ha b hb hQa hQb
        simp only [Bool.and_eq_true, beq_iff_eq] at hQa hQb
        obtain ⟨⟨hak, _⟩, haday⟩ := hQa
        obtain ⟨⟨hbk, _⟩, hbday⟩ := hQb
        obtain ⟨ha1, ha2, ha3, ha4, ha5, ha6⟩ := hv a ha
        obtain ⟨hb1, hb2, hb3, hb4, hb5, hb6⟩ := hv b hb
        have hym : a.yearMo = b.yearMo := by rw [hak, hbk]
        have hym' := (yearMoYM_inj ha1 ha2 (by omega) hb1 hb2 (by omega)).mp hym
        have hday : a.day = b.day := by
          rw [haday, hbday, hak, hbk]
        simp only [Prod.mk.injEq]
        exact ⟨hym'.1, hym'.2, hday⟩
      have hge1 : 1 ≤ (l.filter (fun r => strLeB start_month r.year_mo &&
          strLeB r.year_mo (fineval.resolve_end_month todayYear todayMonth
            end_month))).countP (fun o => o.year_mo == k) := by
        rw [hcount k]
        obtain ⟨r₀, hr₀, hr₀k⟩ := hex
        have hp₀ : toPRow price_col r₀ ∈ df.map (toPRow price_col) :=
          List.mem_map.mpr ⟨r₀, hr₀, rfl⟩
        obtain ⟨_, _, _, _, hd₀1, _⟩ := hv r₀ hr₀
        obtain ⟨p, hp, hpym, hpday⟩ := maxDayIn_attained hp₀ (by
          show 1 ≤ r₀.day
          omega)
        obtain ⟨r₁, hr₁, rfl⟩ := List.mem_map.mp hp
        apply List.countP_pos_iff.mpr
        refine ⟨r₁, hr₁, ?_⟩
        have hr₁k : r₁.yearMo = k := by
          have : (toPRow price_col r₁).year_mo = (toPRow price_col r₀).year_mo := hpym
          simpa [toPRow, hr₀k] using this
        simp only [Bool.and_eq_true, beq_iff_eq]
        refine ⟨⟨hr₁k, ?_, ?_⟩, ?_⟩
        · rw [hr₁k]; exact hks
        · rw [hr₁k]; exact hke
        · show r₁.day = maxDayIn (df.map (toPRow price_col)) r₁.yearMo
          have : (toPRow price_col r₁).day
              = maxDayIn (df.map (toPRow price_col)) (toPRow price_col r₀).year_mo := hpday
          rw [show (toPRow price_col r₁).day = r₁.day from rfl] at this
          rw [this]
          congr 1
          exact hpym.symm
      omega

/-- Witness for C2 at a two-month concrete series. -/
theorem C2_exactly_one_per_month_witness :
    ([⟨"2019-01-15", 11, "2019-01"⟩, ⟨"2019-02-05", 12, "2019-02"⟩] :
        List EomRow).countP (fun o => o.year_mo == "2019-01") = 1 :=
  (C2_exactly_one_per_month
    [⟨2019, 1, 3, [("Close", 10)]⟩, ⟨2019, 1, 15, [("Close", 11)]⟩,
      ⟨2019, 2, 5, [("Close", 12)]⟩] "2019-01" "2019-12" "Close" 2025 6
    (by decide) (by decide)
    [⟨"2019-01-15", 11, "2019-01"⟩, ⟨"2019-02-05", 12, "2019-02"⟩]
    (by decide)).2 "2019-01" (by decide) (by decide)
    ⟨⟨2019, 1, 3, [("Close", 10)]⟩, by decide, rfl⟩

theorem foldr_max_perm {l₁ l₂ : List Nat} (h : l₁.Perm l₂) (b : Nat) :
    l₁.foldr max b = l₂.foldr max b := by
  induction h with
  | nil => rfl
  | cons x _ ih => simp only [List.foldr_cons, ih]
  | swap x y l => simp only [List.foldr_cons, max_left_comm]
  | trans _ _ ih₁ ih₂ => rw [ih₁, ih₂]

theorem maxDayIn_perm {ps₁ ps₂ : List PRow} (hp : ps₁.Perm ps₂) (k : String) :
    maxDayIn ps₁ k = maxDayIn ps₂ k := by
  rw [maxDayIn, maxDayIn]
  exact foldr_max_perm ((hp.filter _).map _) 0

theorem sortedKeys_perm_eq {ps₁ ps₂ : List PRow} (hp : ps₁.Perm ps₂) :
    sortedKeys ps₁ = sortedKeys ps₂ := by
  haveI : IsTrans String (fun a b => strLeB a b = true) := ⟨fun a b c => strLeB_trans⟩
  haveI : IsAntisymm String (fun a b => strLeB a b = true) := ⟨fun a b => strLeB_antisymm⟩
  haveI : IsTotal String (fun a b => strLeB a b = true) := ⟨strLeB_total⟩
  refine List.eq_of_perm_of_sorted ?_ (List.sorted_insertionSort _ _)
    (List.sorted_insertionSort _ _)
  exact (List.perm_insertionSort _ _).trans (((hp.map _).dedup).trans
    (List.perm_insertionSort _ _).symm)

theorem eomTable_perm_eq {ps₁ ps₂ : List PRow} (hp : ps₁.Perm ps₂) :
    eomTable ps₁ = eomTable ps₂ := by
  have hf : (fun k => (⟨k, maxDayIn ps₁ k,
        k ++ "-" ++ zfill 2 (Nat.repr (maxDayIn ps₁ k))⟩ : EomKeyRow))
      = (fun k => (⟨k, maxDayIn ps₂ k,
        k ++ "-" ++ zfill 2 (Nat.repr (maxDayIn ps₂ k))⟩ : EomKeyRow)) :=
    funext fun k => by rw [maxDayIn_perm hp]
  rw [eomTable, eomTable, sortedKeys_perm_eq hp, hf]

/-- C5 amended: permuting the input rows permutes the output rows (the
same end-of-month rows are produced, each month's selected date and price
unchanged), but it does not leave the output unchanged: the output order
follows the input row order, not the dates. -/
theorem C5_permutation_invariance (df₁ df₂ : List Row)
    (start_month end_month price_col : String) (todayYear todayMonth : Nat)
    (hperm : df₁.Perm df₂) (out₁ out₂ : List EomRow)
    (h₁ : fineval.get_eomonth_price df₁ start_month end_month price_col
      todayYear todayMonth = .ok out₁)
    (h₂ : fineval.get_eomonth_price df₂ start_month end_month price_col
      todayYear todayMonth = .ok out₂) :
    out₁.Perm out₂ := by
  cases hf₁ : eomFrame price_col df₁ with
  | error e => rw [fineval.get_eomonth_price, hf₁] at h₁; cases h₁
  | ok l₁ =>
    cases hf₂ : eomFrame price_col df₂ with
    | error e => rw [fineval.get_eomonth_price, hf₂] at h₂; cases h₂
    | ok l₂ =>
      rw [fineval.get_eomonth_price, hf₁] at h₁
      rw [fineval.get_eomonth_price, hf₂] at h₂
      cases h₁
      cases h₂
      obtain ⟨_, hl₁⟩ := eomFrame_ok_inv price_col hf₁
      obtain ⟨_, hl₂⟩ := eomFrame_ok_inv price_col hf₂
      have hpp : (df₁.map (toPRow price_col)).Perm (df₂.map (toPRow price_col)) :=
        hperm.map _
      have hl : l₁.Perm l₂ := by
        rw [hl₁, hl₂, eomTable_perm_eq hpp, mergeEom, mergeEom]
        exact hpp.flatMap_right _
      exact hl.filter _

/-- Witness for the C5 amended theorem: the outputs of a series and its
reversal are permutations of each other. -/
theorem C5_permutation_invariance_witness :
    ([⟨"2019-01-15", 11, "2019-01"⟩, ⟨"2019-02-05", 12, "2019-02"⟩] :
      List EomRow).Perm
      [⟨"2019-02-05", 12, "2019-02"⟩, ⟨"2019-01-15", 11, "2019-01"⟩] :=
  C5_permutation_invariance
    [⟨2019, 1, 3, [("Close", 10)]⟩, ⟨2019, 1, 15, [("Close", 11)]⟩,
      ⟨2019, 2, 5, [("Close", 12)]⟩]
    [⟨2019, 2, 5, [("Close", 12)]⟩, ⟨2019, 1, 15, [("Close", 11)]⟩,
      ⟨2019, 1, 3, [("Close", 10)]⟩]
    "2019-01" "2019-12" "Close" 2025 6 (by decide)
    [⟨"2019-01-15", 11, "2019-01"⟩, ⟨"2019-02-05", 12, "2019-02"⟩]
    [⟨"2019-02-05", 12, "2019-02"⟩, ⟨"2019-01-15", 11, "2019-01"⟩]
    (by decide) (by decide)
